import Mathlib

/-!
Verification of `pysteps/extrapolation/interface.py`.

The module is embedded shallowly: NumPy arrays become structures carrying a
shape and a total valuation function over `ℚ`, the Python kwargs dict becomes
a finite partial map from `String`, and the registry dictionary becomes an
association list keyed by `Option String` (`none` models Python `None`).
The `semilagrangian` module is not part of the visible source; the parts of it
needed here are modelled from the spec and marked as such.
-/

namespace Pysteps

/-- A Python value as it may appear in the kwargs dict of
`eulerian_persistence`; only its truthiness is ever consumed by the code. -/
inductive PyVal where
  | bool (b : Bool)
  | int (n : ℤ)
  | str (s : String)
deriving DecidableEq

/-- Python truthiness: `bool(v)` for the modelled values. -/
def PyVal.truthy : PyVal → Bool
  | .bool b => b
  | .int n => decide (n ≠ 0)
  | .str s => decide (s ≠ "")

/-- The `**kwargs` dict: a partial map from keyword name to value. -/
def Kwargs : Type := String → Option PyVal

/-- The empty kwargs dict. -/
def Kwargs.empty : Kwargs := fun _ => none

/-- `kwargs.get(key, default)`. -/
def Kwargs.get (k : Kwargs) (key : String) (dflt : PyVal) : PyVal :=
  (k key).getD dflt

/-- Passing one extra keyword argument `key=v` on top of `k`. -/
def Kwargs.insert (k : Kwargs) (key : String) (v : PyVal) : Kwargs :=
  fun key2 => if key2 = key then some v else k key2

/-- A 2-D NumPy array of shape `(rows, cols)`: the shape together with a total
valuation of the entries. -/
structure Grid2 where
  rows : ℕ
  cols : ℕ
  val : ℕ → ℕ → ℚ

/-- A 4-D NumPy array, used for the `(2, N, m, n)` displacement output of
`eulerian_persistence`. -/
structure Grid4 where
  d0 : ℕ
  d1 : ℕ
  d2 : ℕ
  d3 : ℕ
  val : ℕ → ℕ → ℕ → ℕ → ℚ

/-- The `(2, m, n)` velocity argument: x- and y-component grids. -/
structure Velocity where
  rows : ℕ
  cols : ℕ
  x : ℕ → ℕ → ℚ
  y : ℕ → ℕ → ℚ

/-- The value returned by `eulerian_persistence`: either the extrapolated
array alone, or (when `return_displacement` is truthy) the pair of the
extrapolated array and the all-zero displacement array. -/
inductive EulerianResult where
  | fields (seq : List Grid2)
  | withDisplacement (seq : List Grid2) (disp : Grid4)

/-- The extrapolated sequence inside an `EulerianResult` (first component of
the Python return value in either branch). -/
def EulerianResult.extrapolated : EulerianResult → List Grid2
  | .fields seq => seq
  | .withDisplacement seq _ => seq

/-- `eulerian_persistence(precip, velocity, num_timesteps, **kwargs)`:
`velocity` is deleted unused; `np.repeat(precip[np.newaxis], N, axis=0)`
becomes `List.replicate`; the optional second return value is
`np.zeros((2,) + extrapolated_precip.shape)`. -/
def eulerian_persistence (precip : Grid2) (velocity : Velocity)
    (num_timesteps : ℕ) (kwargs : Kwargs) : EulerianResult :=
  let _ := velocity
  let return_displacement := (kwargs.get "return_displacement" (.bool false)).truthy
  let extrapolated_precip := List.replicate num_timesteps precip
  if return_displacement = false then
    .fields extrapolated_precip
  else
    .withDisplacement extrapolated_precip
      ⟨2, num_timesteps, precip.rows, precip.cols, fun _ _ _ _ => 0⟩

/-- `_do_nothing(precip, velocity, num_timesteps, **kwargs)`: deletes every
argument and returns Python `None`, modelled as `Option.none`. -/
def _do_nothing (precip : Grid2) (velocity : Velocity) (num_timesteps : ℕ)
    (kwargs : Kwargs) : Option EulerianResult :=
  let _ := (precip, velocity, num_timesteps, kwargs)
  none

/-- Tags for the three callables held by the registry dictionary. -/
inductive Method where
  | eulerianMethod
  | semilagrangianMethod
  | doNothingMethod
deriving DecidableEq

/-- Python dict lookup `d[key]` over an association list: first matching key,
`none` on `KeyError`. -/
def dictLookup {α β : Type} [DecidableEq α] : List (α × β) → α → Option β
  | [], _ => none
  | (k, v) :: rest, key => if key = k then some v else dictLookup rest key

/-- The module-level `_extrapolation_methods` dict in insertion order:
`'eulerian'`, `'semilagrangian'`, `None`. -/
def _extrapolation_methods : List (Option String × Method) :=
  [(some "eulerian", .eulerianMethod),
   (some "semilagrangian", .semilagrangianMethod),
   (none, .doNothingMethod)]

/-- ASCII model of Python `str.lower` on one character. -/
def pyLowerChar (c : Char) : Char :=
  if 65 ≤ c.toNat ∧ c.toNat ≤ 90 then Char.ofNat (c.toNat + 32) else c

/-- ASCII model of Python `str.lower`. -/
def pyLower (s : String) : String := ⟨s.data.map pyLowerChar⟩

/-- The data carried by the `ValueError` that `get_method` raises on an
unknown name (the spec's `UnknownMethodError`): the name interpolated into
the message and the list of the registry's keys. -/
structure UnknownMethodError where
  name : Option String
  available : List (Option String)
deriving DecidableEq

/-- `get_method(name)`: strings are lower-cased, then the registry dict is
indexed; a `KeyError` is turned into the descriptive error. -/
def get_method (name : Option String) : Except UnknownMethodError Method :=
  let key : Option String := name.map pyLower
  match dictLookup _extrapolation_methods key with
  | some m => .ok m
  | none => .error ⟨key, _extrapolation_methods.map Prod.fst⟩

namespace semilagrangian

/-- Modelled from the spec: the repository's `pysteps.extrapolation.semilagrangian`
module is not in the visible source.  Bilinear interpolation of a grid
(extended to a total function on `ℤ × ℤ`) at a continuous coordinate: the
weighted average of the four surrounding cells, weights proportional to
proximity along each axis. -/
def bilinear (f : ℤ → ℤ → ℚ) (x y : ℚ) : ℚ :=
  let i : ℤ := ⌊x⌋
  let j : ℤ := ⌊y⌋
  let fx : ℚ := x - i
  let fy : ℚ := y - j
  (1 - fx) * (1 - fy) * f i j + fx * (1 - fy) * f (i + 1) j
    + (1 - fx) * fy * f i (j + 1) + fx * fy * f (i + 1) (j + 1)

/-- Clamp a coordinate into `[lo, hi]`. -/
def clampQ (lo hi x : ℚ) : ℚ := max lo (min x hi)

/-- Modelled from the spec: the shape, out-of-domain fill value and sub-step
count consumed by the missing `semilagrangian.extrapolate`. -/
structure SLConfig where
  rows : ℕ
  cols : ℕ
  outsideValue : ℚ
  subSteps : ℕ

/-- Modelled from the spec: velocity sampled by bilinear interpolation at a
trajectory position, the position clamped into the valid extent
`[0, rows-1] × [0, cols-1]` for the purpose of velocity sampling. -/
def sampleVelocity (vx vy : ℤ → ℤ → ℚ) (cfg : SLConfig) (p : ℚ × ℚ) : ℚ × ℚ :=
  let px := clampQ 0 ((cfg.rows : ℚ) - 1) p.1
  let py := clampQ 0 ((cfg.cols : ℚ) - 1) p.2
  (bilinear vx px py, bilinear vy px py)

/-- Modelled from the spec: one backward sub-step of trajectory integration:
subtract the locally sampled velocity scaled by `1 / subSteps`. -/
def slSubstep (vx vy : ℤ → ℤ → ℚ) (cfg : SLConfig) (p : ℚ × ℚ) : ℚ × ℚ :=
  let v := sampleVelocity vx vy cfg p
  (p.1 - v.1 / (cfg.subSteps : ℚ), p.2 - v.2 / (cfg.subSteps : ℚ))

/-- Modelled from the spec: the backward trajectory of output cell `(i, j)`
after `k` sub-steps, starting from the cell's own position at `k = 0`. -/
def slTrajectory (vx vy : ℤ → ℤ → ℚ) (cfg : SLConfig) (i j : ℕ) : ℕ → ℚ × ℚ
  | 0 => ((i : ℚ), (j : ℚ))
  | k + 1 => slSubstep vx vy cfg (slTrajectory vx vy cfg i j k)

/-- Modelled from the spec: the value of output cell `(i, j)` at output
timestep `t ≥ 1` (default bilinear interpolation order): resample the
original input field at the accumulated source coordinate, or fill with
`outsideValue` when the coordinate left `[0, rows-1] × [0, cols-1]`. -/
def slCell (F vx vy : ℤ → ℤ → ℚ) (cfg : SLConfig) (t i j : ℕ) : ℚ :=
  let p := slTrajectory vx vy cfg i j (t * cfg.subSteps)
  if 0 ≤ p.1 ∧ p.1 ≤ (cfg.rows : ℚ) - 1 ∧ 0 ≤ p.2 ∧ p.2 ≤ (cfg.cols : ℚ) - 1 then
    bilinear F p.1 p.2
  else
    cfg.outsideValue

/-- Modelled from the spec: `semilagrangian.extrapolate` producing the ordered
sequence of `num_timesteps` output fields, index `t` holding the field `t + 1`
steps ahead of the input. -/
def extrapolate (F vx vy : ℤ → ℤ → ℚ) (cfg : SLConfig)
    (num_timesteps : ℕ) : List (ℕ → ℕ → ℚ) :=
  (List.range num_timesteps).map fun t => fun i j => slCell F vx vy cfg (t + 1) i j

end semilagrangian

/-! ### Helper lemmas -/

theorem toNat_ofNat_small (n : ℕ) (h : n < 55296) : (Char.ofNat n).toNat = n := by
  unfold Char.ofNat
  rw [dif_pos (Or.inl h)]
  rfl

theorem pyLowerChar_idem (c : Char) : pyLowerChar (pyLowerChar c) = pyLowerChar c := by
  by_cases h : 65 ≤ c.toNat ∧ c.toNat ≤ 90
  · have h2 : (Char.ofNat (c.toNat + 32)).toNat = c.toNat + 32 :=
      toNat_ofNat_small _ (by omega)
    simp only [pyLowerChar, if_pos h, h2]
    rw [if_neg (by omega)]
  · simp only [pyLowerChar, if_neg h]

theorem pyLower_idem (s : String) : pyLower (pyLower s) = pyLower s := by
  refine congrArg String.mk ?_
  show (s.data.map pyLowerChar).map pyLowerChar = s.data.map pyLowerChar
  rw [List.map_map]
  exact List.map_congr_left fun c _ => pyLowerChar_idem c

theorem eulerian_extrapolated_eq (F : Grid2) (V : Velocity) (N : ℕ) (k : Kwargs) :
    (eulerian_persistence F V N k).extrapolated = List.replicate N F := by
  simp only [eulerian_persistence]
  split <;> rfl

theorem bilinear_zero (x y : ℚ) : semilagrangian.bilinear (fun _ _ => 0) x y = 0 := by
  simp [semilagrangian.bilinear]

theorem slTrajectory_zero (cfg : semilagrangian.SLConfig) (i j k : ℕ) :
    semilagrangian.slTrajectory (fun _ _ => 0) (fun _ _ => 0) cfg i j k =
      ((i : ℚ), (j : ℚ)) := by
  induction k with
  | zero => rfl
  | succ k ih =>
      simp [semilagrangian.slTrajectory, semilagrangian.slSubstep,
        semilagrangian.sampleVelocity, ih, bilinear_zero]

theorem bilinear_at_int (F : ℤ → ℤ → ℚ) (i j : ℕ) :
    semilagrangian.bilinear F (i : ℚ) (j : ℚ) = F i j := by
  have hx : ⌊(i : ℚ)⌋ = (i : ℤ) := Int.floor_natCast i
  have hy : ⌊(j : ℚ)⌋ = (j : ℤ) := Int.floor_natCast j
  simp [semilagrangian.bilinear, hx, hy]

/-! ### Claims -/

/-- C1: for every 2D field `F`, every velocity field, and every
`num_timesteps ≥ 1`, `eulerian_persistence` returns an ordered sequence of
exactly `N` fields, each exactly equal to `F`. -/
theorem eulerian_persistence_replicates (F : Grid2) (V : Velocity) (N : ℕ)
    (kwargs : Kwargs) (hN : 1 ≤ N) :
    ((eulerian_persistence F V N kwargs).extrapolated).length = N ∧
    ∀ g ∈ (eulerian_persistence F V N kwargs).extrapolated, g = F := by
  rw [eulerian_extrapolated_eq]
  exact ⟨List.length_replicate N F, fun g hg => List.eq_of_mem_replicate hg⟩

theorem eulerian_persistence_replicates_witness :
    1 ≤ 3 ∧
    (((eulerian_persistence ⟨2, 2, fun _ _ => 5⟩
        ⟨2, 2, fun _ _ => 1, fun _ _ => 2⟩ 3 Kwargs.empty).extrapolated).length = 3 ∧
     ∀ g ∈ (eulerian_persistence ⟨2, 2, fun _ _ => 5⟩
        ⟨2, 2, fun _ _ => 1, fun _ _ => 2⟩ 3 Kwargs.empty).extrapolated,
        g = ⟨2, 2, fun _ _ => 5⟩) :=
  ⟨by decide, eulerian_persistence_replicates _ _ 3 _ (by decide)⟩

/-- C2 counterexample: the error raised for the unknown name `"FOO"` carries
the lower-cased name `"foo"`, not the requested name `"FOO"`. -/
theorem get_method_lowercases_error_name :
    get_method (some "FOO") =
      .error ⟨some "foo", [some "eulerian", some "semilagrangian", none]⟩ ∧
    (some "foo" : Option String) ≠ some "FOO" := by
  exact ⟨rfl, by decide⟩

/-- C2 (amended): for every string whose lower-casing is neither `"eulerian"`
nor `"semilagrangian"`, `get_method` fails with an error carrying the
lower-cased requested name and the list of valid method names, and returns
no callable. -/
theorem get_method_unknown_raises (s : String)
    (h1 : pyLower s ≠ "eulerian") (h2 : pyLower s ≠ "semilagrangian") :
    get_method (some s) =
      .error ⟨some (pyLower s), [some "eulerian", some "semilagrangian", none]⟩ := by
  simp [get_method, dictLookup, _extrapolation_methods, h1, h2]

theorem get_method_unknown_raises_witness :
    pyLower "foo" ≠ "eulerian" ∧ pyLower "foo" ≠ "semilagrangian" ∧
    get_method (some "foo") =
      .error ⟨some (pyLower "foo"), [some "eulerian", some "semilagrangian", none]⟩ :=
  ⟨by decide, by decide, get_method_unknown_raises "foo" (by decide) (by decide)⟩

/-- C3 counterexample: calling `eulerian_persistence` with `num_timesteps = 0`
does not fail with any validation error; it returns the empty sequence. -/
theorem eulerian_zero_timesteps_succeeds :
    eulerian_persistence ⟨1, 1, fun _ _ => 0⟩ ⟨1, 1, fun _ _ => 0, fun _ _ => 0⟩
      0 Kwargs.empty = .fields [] := rfl

/-- C3 (amended): `eulerian_persistence` performs no step-count validation:
`num_timesteps = 0` succeeds and returns an empty sequence, while
`num_timesteps = 1` succeeds and returns a sequence of length 1 holding the
input field. -/
theorem eulerian_step_count_behavior (F : Grid2) (V : Velocity) (kwargs : Kwargs) :
    (eulerian_persistence F V 0 kwargs).extrapolated = [] ∧
    (eulerian_persistence F V 1 kwargs).extrapolated = [F] := by
  rw [eulerian_extrapolated_eq, eulerian_extrapolated_eq]
  exact ⟨rfl, rfl⟩

/-- C4: when `return_displacement` is truthy, `eulerian_persistence` returns,
next to the extrapolated sequence of length `N`, an all-zero displacement
array of shape `(2, N, rows, cols)`: one `(dx, dy)` grid pair per output
timestep, indexed like the extrapolated fields. -/
theorem eulerian_persistence_zero_displacement (F : Grid2) (V : Velocity) (N : ℕ)
    (kwargs : Kwargs)
    (h : (Kwargs.get kwargs "return_displacement" (.bool false)).truthy = true) :
    ∃ seq disp, eulerian_persistence F V N kwargs = .withDisplacement seq disp ∧
      seq.length = N ∧ disp.d0 = 2 ∧ disp.d1 = N ∧ disp.d2 = F.rows ∧
      disp.d3 = F.cols ∧ ∀ c t i j, disp.val c t i j = 0 := by
  refine ⟨List.replicate N F, ⟨2, N, F.rows, F.cols, fun _ _ _ _ => 0⟩, ?_,
    List.length_replicate N F, rfl, rfl, rfl, rfl, fun _ _ _ _ => rfl⟩
  simp only [eulerian_persistence]
  rw [if_neg (by simp [h])]

theorem eulerian_persistence_zero_displacement_witness :
    (Kwargs.get (Kwargs.insert Kwargs.empty "return_displacement" (.bool true))
        "return_displacement" (.bool false)).truthy = true ∧
    ∃ seq disp,
      eulerian_persistence ⟨2, 3, fun i j => (i : ℚ) + j⟩
          ⟨2, 3, fun _ _ => 1, fun _ _ => 0⟩ 2
          (Kwargs.insert Kwargs.empty "return_displacement" (.bool true)) =
        .withDisplacement seq disp ∧
      seq.length = 2 ∧ disp.d0 = 2 ∧ disp.d1 = 2 ∧ disp.d2 = 2 ∧ disp.d3 = 3 ∧
      ∀ c t i j, disp.val c t i j = 0 :=
  ⟨rfl, eulerian_persistence_zero_displacement _ _ 2 _ rfl⟩

/-- C5: registry lookup is case-insensitive for textual names: `get_method`
applied to a string returns the same result as applied to its lower-casing. -/
theorem get_method_case_insensitive (s : String) :
    get_method (some s) = get_method (some (pyLower s)) := by
  simp only [get_method, Option.map_some', pyLower_idem]

/-- C6: resolving the none sentinel succeeds: `get_method` on `None` returns
`_do_nothing`, which for every field, velocity, step count and kwargs returns
the empty result (Python `None`) and raises nothing. -/
theorem get_method_none_noop :
    get_method none = .ok Method.doNothingMethod ∧
    ∀ (F : Grid2) (V : Velocity) (N : ℕ) (k : Kwargs), _do_nothing F V N k = none :=
  ⟨rfl, fun _ _ _ _ => rfl⟩

/-- C7 (spec-modelled): semi-Lagrangian extrapolation with an all-zero
velocity field yields exactly `N` copies of the input field on the whole
grid: bilinear interpolation at integer coordinates is lossless. -/
theorem semilagrangian_zero_velocity_identity (F : ℤ → ℤ → ℚ)
    (cfg : semilagrangian.SLConfig) (N : ℕ) (hN : 1 ≤ N) (hs : 1 ≤ cfg.subSteps) :
    (semilagrangian.extrapolate F (fun _ _ => 0) (fun _ _ => 0) cfg N).length = N ∧
    ∀ g ∈ semilagrangian.extrapolate F (fun _ _ => 0) (fun _ _ => 0) cfg N,
      ∀ i j : ℕ, i < cfg.rows → j < cfg.cols → g i j = F i j := by
  constructor
  · simp [semilagrangian.extrapolate]
  · intro g hg i j hi hj
    simp only [semilagrangian.extrapolate, List.mem_map] at hg
    obtain ⟨t, ht, rfl⟩ := hg
    simp only [semilagrangian.slCell, slTrajectory_zero]
    rw [if_pos]
    · exact bilinear_at_int F i j
    · have hi1 : (i : ℚ) + 1 ≤ (cfg.rows : ℚ) := by exact_mod_cast hi
      have hj1 : (j : ℚ) + 1 ≤ (cfg.cols : ℚ) := by exact_mod_cast hj
      exact ⟨Nat.cast_nonneg i, by linarith, Nat.cast_nonneg j, by linarith⟩

theorem semilagrangian_zero_velocity_identity_witness :
    1 ≤ 1 ∧ 1 ≤ (⟨2, 2, 0, 1⟩ : semilagrangian.SLConfig).subSteps ∧
    ((semilagrangian.extrapolate (fun i j => (i : ℚ) + j) (fun _ _ => 0)
        (fun _ _ => 0) ⟨2, 2, 0, 1⟩ 1).length = 1 ∧
     ∀ g ∈ semilagrangian.extrapolate (fun i j => (i : ℚ) + j) (fun _ _ => 0)
        (fun _ _ => 0) ⟨2, 2, 0, 1⟩ 1,
       ∀ i j : ℕ, i < (⟨2, 2, 0, 1⟩ : semilagrangian.SLConfig).rows →
         j < (⟨2, 2, 0, 1⟩ : semilagrangian.SLConfig).cols →
         g i j = (i : ℚ) + j) :=
  ⟨by decide, by decide,
    semilagrangian_zero_velocity_identity _ _ 1 (by decide) (by decide)⟩

/-- C8: the output of `eulerian_persistence` does not depend on the velocity
argument: any two velocity fields give exactly equal results. -/
theorem eulerian_persistence_velocity_independent (F : Grid2) (V1 V2 : Velocity)
    (N : ℕ) (k : Kwargs) :
    eulerian_persistence F V1 N k = eulerian_persistence F V2 N k := rfl

/-- C9: keyword options other than `return_displacement` are silently
ignored: adding any such keyword neither changes the returned value nor
raises. -/
theorem eulerian_persistence_ignores_unknown_kwargs (F : Grid2) (V : Velocity)
    (N : ℕ) (k : Kwargs) (key : String) (v : PyVal)
    (h : key ≠ "return_displacement") :
    eulerian_persistence F V N (k.insert key v) = eulerian_persistence F V N k := by
  have hne : (("return_displacement" : String) = key) = False :=
    eq_false fun hh => h hh.symm
  simp only [eulerian_persistence, Kwargs.get, Kwargs.insert, hne, if_false]

theorem eulerian_persistence_ignores_unknown_kwargs_witness :
    ("verbose" : String) ≠ "return_displacement" ∧
    eulerian_persistence ⟨1, 1, fun _ _ => 7⟩ ⟨1, 1, fun _ _ => 0, fun _ _ => 0⟩
        4 (Kwargs.insert Kwargs.empty "verbose" (.bool true)) =
      eulerian_persistence ⟨1, 1, fun _ _ => 7⟩ ⟨1, 1, fun _ _ => 0, fun _ _ => 0⟩
        4 Kwargs.empty :=
  ⟨by decide,
    eulerian_persistence_ignores_unknown_kwargs _ _ 4 _ "verbose" _ (by decide)⟩

/-- C10: for every input, `get_method` either fails with the descriptive
error or returns exactly one of the three registered functions. -/
theorem get_method_exhaustive (name : Option String) :
    (∃ e, get_method name = .error e) ∨
    get_method name = .ok Method.eulerianMethod ∨
    get_method name = .ok Method.semilagrangianMethod ∨
    get_method name = .ok Method.doNothingMethod := by
  rcases h : dictLookup _extrapolation_methods (Option.map pyLower name) with _ | m
  · refine .inl ⟨⟨Option.map pyLower name, _extrapolation_methods.map Prod.fst⟩, ?_⟩
    simp only [get_method, h]
  · cases m
    · exact .inr (.inl (by simp only [get_method, h]))
    · exact .inr (.inr (.inl (by simp only [get_method, h])))
    · exact .inr (.inr (.inr (by simp only [get_method, h])))

end Pysteps
